import Mathlib

/-! Verification development for a WebAssembly MVP interpreter.  The Rust
sources are shallowly embedded: machine integers become `Nat`/`Int` with
explicit wrap-arounds, linear memory becomes a `List Nat` of bytes, fallible
paths return explicit result types, and Rust panics are modelled as a
distinguished `panicked` outcome.  Definitions mirror
`src/execution/interpreter_loop.rs`, `src/execution/store.rs`,
`src/validation/read_constant_expression.rs` and `src/validation/mod.rs`;
pieces of the crate that are not among the sources (the byte reader's LEB128
codec, the value-stack module, the opcode constants, the `Limits` constants)
are modelled from the specification and are marked as such. -/

namespace WasmIntp

/-- Runtime errors surfaced by the interpreter loop (the crate's
`RuntimeError` enum, used throughout `src/execution/interpreter_loop.rs`). -/
inductive RuntimeError where
  | DivideBy0
  | UnrepresentableResult
  | BadConversionToInteger
  | MemoryAccessOutOfBounds
  deriving DecidableEq, Repr

/-- Validation-side errors needed by the embedded fragments (variants of the
crate's `Error` enum, spec section 4.I). `LebTooLong` stands for the reader's
rejection of an over-long LEB128 encoding. -/
inductive VError where
  | ExprMissingEnd
  | InvalidInstr (byte : Nat)
  | Eof
  | LebTooLong
  | InvalidRefType
  deriving DecidableEq, Repr

/-- Page size in bytes (`MemInst::PAGE_SIZE`, `src/execution/store.rs`). -/
def PAGE_SIZE : Nat := 65536

/-- Maximum page count (`MemInst::MAX_PAGES`, `src/execution/store.rs`). -/
def MAX_PAGES : Nat := 65536

/-- Modelled from the spec: `Limits::MAX_BYTES`.  The `Limits` constants live
in a file that is not among the sources; spec section 6 fixes
PAGE_SIZE = 65536, MAX_PAGES = 65536 and MAX_BYTES = 4294967296 exactly. -/
def MAX_BYTES : Nat := 4294967296

/-- Little-endian byte encoding of width `w`, mirroring Rust's
`to_le_bytes` (possibly followed by slicing): `leBytes w v` is
`[v % 256, v / 256 % 256, ...]` of length `w`. -/
def leBytes : Nat → Nat → List Nat
  | 0, _ => []
  | w + 1, v => v % 256 :: leBytes w (v / 256)

/-- Outcome of a store-instruction arm: a successful write, a runtime trap,
or a Rust panic (`copy_from_slice` aborts the process when the source and
destination slice lengths differ). -/
inductive MemWriteResult where
  | ok (mem : List Nat)
  | trap (e : RuntimeError)
  | panicked
  deriving DecidableEq, Repr

/-- Overwrite the bytes of `mem` starting at `start` with `src`. -/
def writeWindow (mem : List Nat) (start : Nat) (src : List Nat) : List Nat :=
  mem.take start ++ src ++ mem.drop (start + src.length)

/-- Model of `mem.data.get_mut(start..start+width)` followed by
`copy_from_slice(src)`: the window must lie inside the data (otherwise the
source maps the `None` to a `MemoryAccessOutOfBounds` trap), and
`copy_from_slice` panics unless `src.length = width`. -/
def copyFromSlice (mem : List Nat) (start width : Nat) (src : List Nat) : MemWriteResult :=
  if start + width ≤ mem.length then
    if src.length = width then .ok (writeWindow mem start src)
    else .panicked
  else .trap .MemoryAccessOutOfBounds

/-- Embedding of the `I64_STORE` arm (`interpreter_loop.rs` lines 538-557).
The arm pops the operand (a 64-bit value `v`) and converts it `.into()` a
`u32` before computing `to_le_bytes`.  Modelled from the spec: the
`Value`-to-`u32` conversion (the value module is not among the sources);
spec section 9 records that the source "pops the value as u32", i.e. the
operand is narrowed to its low 32 bits.  The 4-byte `to_le_bytes()` of that
`u32` is then copied into the 8-byte window at the effective address
`memarg.offset + relAddr` (a checked u32 addition; overflow traps). -/
def i64_store (mem : List Nat) (offset relAddr : Nat) (v : Nat) : MemWriteResult :=
  let data_to_store : Nat := v % 2 ^ 32
  if offset + relAddr < 2 ^ 32 then
    copyFromSlice mem (offset + relAddr) 8 (leBytes 4 data_to_store)
  else .trap .MemoryAccessOutOfBounds

/-- Embedding of the `F64_STORE` arm (`interpreter_loop.rs` lines 580-599):
the arm pops an `f64` operand (carried by its raw 64-bit pattern `bits`),
selects the 4-byte window `[ea, ea+4)` and copies the 8-byte
`to_le_bytes()` encoding into it. -/
def f64_store (mem : List Nat) (offset relAddr : Nat) (bits : Nat) : MemWriteResult :=
  if offset + relAddr < 2 ^ 32 then
    copyFromSlice mem (offset + relAddr) 4 (leBytes 8 bits)
  else .trap .MemoryAccessOutOfBounds

/-- Behavior of `i64.store` as the claim states it: pop the operand at full
64-bit width and write its complete 8-byte little-endian encoding into
`[ea, ea+8)`, trapping with MemoryAccessOutOfBounds when the window does not
lie within the memory's data. -/
def i64_store_claim (mem : List Nat) (offset relAddr : Nat) (v : Nat) : MemWriteResult :=
  if offset + relAddr < 2 ^ 32 ∧ offset + relAddr + 8 ≤ mem.length then
    .ok (writeWindow mem (offset + relAddr) (leBytes 8 (v % 2 ^ 64)))
  else .trap .MemoryAccessOutOfBounds

/-- Outcome of the active-data-segment bounds handling during validation. -/
inductive DataBoundsOutcome where
  | accepted
  | panicked
  deriving DecidableEq, Repr

/-- Embedding of the active data-segment bounds handling in the Data-section
handler (`src/validation/mod.rs` lines 329-339): `max_bytes` is
`max * PAGE_SIZE` when a maximum is declared and differs from `MAX_PAGES`,
otherwise `MAX_BYTES`; when `byte_vec.len() + val > max_bytes` the source
invokes the `panic!` macro ("Out of bounds") — it does not return an `Err`.
`val` is the resolved constant-expression offset, `byteVecLen` the payload
length, `memMax` the memory's declared maximum page count. -/
def dataSegmentBoundsCheck (val byteVecLen : Nat) (memMax : Option Nat) : DataBoundsOutcome :=
  let max_bytes : Nat :=
    match memMax with
    | some mx => if mx ≠ MAX_PAGES then mx * PAGE_SIZE else MAX_BYTES
    | none => MAX_BYTES
  if byteVecLen + val > max_bytes then .panicked else .accepted

/-- Embedding of `MemInst` (`src/execution/store.rs` lines 37-41): the memory
type is reduced to its optional declared maximum page count, `data` is the
byte vector. -/
structure MemInst where
  maxPages : Option Nat
  data : List Nat
  deriving DecidableEq, Repr

/-- Embedding of `MemInst::new` (`store.rs` lines 46-53): allocate
`min * PAGE_SIZE` zero bytes. -/
def MemInst.new (min : Nat) (maxPages : Option Nat) : MemInst :=
  ⟨maxPages, List.replicate (min * PAGE_SIZE) 0⟩

/-- Embedding of `MemInst::size` (`store.rs` lines 61-63). -/
def MemInst.size (m : MemInst) : Nat := m.data.length / PAGE_SIZE

/-- Embedding of `MemInst::grow` (`store.rs` lines 55-58): extend `data` by
`delta_pages * PAGE_SIZE` zero bytes. -/
def MemInst.grow (m : MemInst) (delta_pages : Nat) : MemInst :=
  { m with data := m.data ++ List.replicate (delta_pages * PAGE_SIZE) 0 }

/-- Embedding of the `MEMORY_GROW` arm (`interpreter_loop.rs` lines 724-750):
pop `delta` as a signed i32; `upper_limit` is the declared maximum when
present and `MAX_PAGES` otherwise; when `delta < 0` or
`delta + size > upper_limit` push -1 and leave the data alone; otherwise
push the previous size and call `MemInst::grow`.  Returns the memory after
the instruction together with the pushed i32. -/
def memory_grow (m : MemInst) (delta : Int) : MemInst × Int :=
  let upper_limit : Nat := match m.maxPages with | some mx => mx | none => MAX_PAGES
  if delta < 0 ∨ delta.toNat + m.size > upper_limit then (m, -1)
  else (m.grow delta.toNat, (m.size : Int))

/-- Behavior of `memory.grow` as the claim states it, written from the
claim's words: if `delta < 0` or the current page count plus `delta` exceeds
the configured maximum page count (the declared max, or 65536 when none was
declared), push -1 and leave the data unchanged; otherwise push the previous
page count and append exactly `delta * 65536` zero bytes. -/
def memory_grow_claim (m : MemInst) (delta : Int) : MemInst × Int :=
  if delta < 0 ∨ (m.size : Int) + delta > (m.maxPages.getD 65536 : Nat) then (m, -1)
  else (⟨m.maxPages, m.data ++ List.replicate (delta.toNat * 65536) 0⟩, (m.size : Int))

/-- Embedding of the `I32_DIV_S` arm (`interpreter_loop.rs` lines 1124-1139).
The parameter names follow the source's locals: `dividend` is popped first
(the stack top — the Wasm divisor), `divisor` second (the Wasm dividend).
The arm errors with DivideBy0 when the popped top is 0, with
UnrepresentableResult on MIN / -1, and otherwise pushes Rust's truncated
quotient `divisor / dividend`. -/
def i32_div_s (dividend divisor : Int) : Except RuntimeError Int :=
  if dividend = 0 then .error .DivideBy0
  else if divisor = -(2 ^ 31) ∧ dividend = -1 then .error .UnrepresentableResult
  else .ok (Int.tdiv divisor dividend)

/-- Embedding of the `I32_REM_S` arm (`interpreter_loop.rs` lines 1156-1169):
DivideBy0 when the popped top is 0; otherwise `checked_rem`, whose `None`
case (exactly MIN % -1) is defaulted to 0 by `unwrap_or_default`. -/
def i32_rem_s (dividend divisor : Int) : Except RuntimeError Int :=
  if dividend = 0 then .error .DivideBy0
  else .ok (if divisor = -(2 ^ 31) ∧ dividend = -1 then 0 else Int.tmod divisor dividend)

/-- Embedding of the `I64_DIV_S` arm (`interpreter_loop.rs` lines
1215-1230), structured exactly as `i32_div_s` with the 64-bit minimum. -/
def i64_div_s (dividend divisor : Int) : Except RuntimeError Int :=
  if dividend = 0 then .error .DivideBy0
  else if divisor = -(2 ^ 63) ∧ dividend = -1 then .error .UnrepresentableResult
  else .ok (Int.tdiv divisor dividend)

/-- Embedding of the `I64_REM_S` arm (`interpreter_loop.rs` lines
1247-1260). -/
def i64_rem_s (dividend divisor : Int) : Except RuntimeError Int :=
  if dividend = 0 then .error .DivideBy0
  else .ok (if divisor = -(2 ^ 63) ∧ dividend = -1 then 0 else Int.tmod divisor dividend)

/-- Runtime values (spec section 3): the integer variants carry unsigned bit
patterns, the float variants their raw bits.  Modelled from the spec — the
value module is not among the sources. -/
inductive Value where
  | I32 (bits : Nat)
  | I64 (bits : Nat)
  | F32 (bits : Nat)
  | F64 (bits : Nat)
  deriving DecidableEq, Repr

/-- Call-frame record (spec section 3): function index, return arity, the
frame's locals, the base of its value-stack region and the return address.
Modelled from the spec — the value-stack module is not among the sources. -/
structure CallFrame where
  func_idx : Nat
  return_arity : Nat
  locals : List Value
  value_stack_base : Nat
  return_pc : Nat
  deriving DecidableEq, Repr

/-- Operand stack with its parallel call-frame sequence (spec section 3);
the current frame is the last entry, as in the source's `Vec`s. -/
structure Stack where
  values : List Value
  frames : List CallFrame
  deriving DecidableEq, Repr

/-- Modelled from the spec: `Stack::pop_stackframe` (section 4.G; the
value-stack module is not among the sources): pop the current frame,
preserving the top `return_arity` values while discarding the values above
the frame's base together with the frame's locals, and hand back the
frame's return address. -/
def Stack.pop_stackframe (st : Stack) : Nat × Stack :=
  match st.frames.getLast? with
  | none => (0, st)
  | some f =>
      (f.return_pc,
        ⟨st.values.take f.value_stack_base ++
          st.values.drop (st.values.length - f.return_arity),
          st.frames.dropLast⟩)

/-- Modelled from the spec: `pop_tail_iter(n)` removes the top `n` values
and yields them in stack order. -/
def Stack.pop_tail_iter (st : Stack) (n : Nat) : List Value × Stack :=
  (st.values.drop (st.values.length - n),
    { st with values := st.values.take (st.values.length - n) })

/-- Modelled from the spec: `clear_callframe_values` discards the values
above the current frame's `value_stack_base`. -/
def Stack.clear_callframe_values (st : Stack) : Stack :=
  match st.frames.getLast? with
  | none => st
  | some f => { st with values := st.values.take f.value_stack_base }

/-- Modelled from the spec: `push_value` appends on top of the stack. -/
def Stack.push_value (st : Stack) (v : Value) : Stack :=
  { st with values := st.values ++ [v] }

/-- Modelled from the spec: `callframe_count` is the number of frames. -/
def Stack.callframe_count (st : Stack) : Nat := st.frames.length

/-- Outcome of the END/RETURN control arms: the invocation finishes (`run`
breaks out of its loop) or execution continues at a return address. -/
inductive ControlOutcome where
  | finished
  | continueAt (pc : Nat)
  deriving DecidableEq, Repr

/-- Embedding of the `END` arm (`interpreter_loop.rs` lines 62-74): pop the
current stack frame; if no frame remains the invocation is finished,
otherwise execution continues at the popped return address. -/
def run_end (st : Stack) : Stack × ControlOutcome :=
  let res := st.pop_stackframe
  if res.2.callframe_count = 0 then (res.2, .finished)
  else (res.2, .continueAt res.1)

/-- Embedding of the `RETURN` arm (`interpreter_loop.rs` lines 75-98):
`typeArity` is the length of the current function type's return tuple
(`types[func.ty].returns`); the arm pops that many tail values, clears the
frame's values, pushes them back, and — when exactly one call frame remains
— finishes the invocation without popping that frame; otherwise it pops the
frame and continues at its return address. -/
def run_return (typeArity : Nat) (st : Stack) : Stack × ControlOutcome :=
  let popped := st.pop_tail_iter typeArity
  let st2 := popped.2.clear_callframe_values
  let st3 := popped.1.foldl Stack.push_value st2
  if st3.callframe_count = 1 then (st3, .finished)
  else
    let res := st3.pop_stackframe
    (res.2, .continueAt res.1)

/-- Modelled from the spec: the set of first-byte opcode values carrying an
arm in the interpreter loop's outer dispatch (`interpreter_loop.rs` lines
61-2274).  The opcode-constants module is not among the sources; the byte
values follow the official Wasm binary format that the spec's section 6
references.  The arms present in the source are END 0x0B, RETURN 0x0F, CALL
0x10, DROP 0x1A, the local/global accessors 0x20-0x24, the loads 0x28-0x35,
the stores 0x36-0x3E, MEMORY_SIZE 0x3F, MEMORY_GROW 0x40, the constants
0x41-0x44, the comparison/arithmetic/conversion ops 0x45-0xBF, and
FC_EXTENSIONS 0xFC. -/
def isImplementedFirstByte (b : Nat) : Bool :=
  b = 0x0B || b = 0x0F || b = 0x10 || b = 0x1A ||
  (0x20 ≤ b && b ≤ 0x24) || (0x28 ≤ b && b ≤ 0xBF) || b = 0xFC

/-- Machine state visible at an instruction boundary of the dispatch loop:
the program counter into the module bytes, the operand/call stack, and the
store's mutable pieces (memories and data segments). -/
structure MachineState where
  pc : Nat
  stack : Stack
  mems : List MemInst
  dataSegs : List (List Nat)
  deriving DecidableEq, Repr

/-- Outcome of one dispatch iteration of `run`: continue the loop with a new
state, dispatch to one of the implemented arms (each embedded separately in
this file), or panic (the `unwrap_validated` on reading past the end). -/
inductive StepOutcome where
  | continueWith (st : MachineState)
  | dispatchedToArm (b : Nat) (st : MachineState)
  | panicked
  deriving DecidableEq, Repr

/-- Embedding of the dispatch head of `run` (`interpreter_loop.rs` lines
59-61 and the catch-all arm at lines 2271-2273): read the first instruction
byte — advancing the pc — and match it; a byte with a matching arm goes to
that arm, and any other byte falls to the catch-all, which only emits a
trace line, so the loop continues at the following byte with the stack and
the store untouched. -/
def runDispatch (bytes : List Nat) (st : MachineState) : StepOutcome :=
  match bytes[st.pc]? with
  | none => .panicked
  | some b =>
      if isImplementedFirstByte b then .dispatchedToArm b { st with pc := st.pc + 1 }
      else .continueWith { st with pc := st.pc + 1 }

/-- Byte-reader cursor over the module bytes (spec section 4.A): an
immutable byte slice with a mutable program counter. -/
structure WasmReader where
  bytes : List Nat
  pc : Nat
  deriving DecidableEq, Repr

/-- Embedding of `read_u8` (spec section 4.A): a single byte, failing with
Eof when the pc is at or past the end. -/
def WasmReader.read_u8 (r : WasmReader) : Except VError (Nat × WasmReader) :=
  match r.bytes[r.pc]? with
  | none => .error .Eof
  | some b => .ok (b, { r with pc := r.pc + 1 })

/-- Embedding of `peek_u8` (spec section 4.A): the byte under the pc
without advancing. -/
def WasmReader.peek_u8 (r : WasmReader) : Except VError Nat :=
  match r.bytes[r.pc]? with
  | none => .error .Eof
  | some b => .ok b

/-- Modelled from the spec: the LEB128 accumulation loop (section 4.A) — 7
bits per byte, continuation-bit termination, rejection when more bytes
appear than the declared width needs (`maxBytes` is 5 for 32-bit reads, 10
for 64-bit reads).  The reader module is not among the sources.  Returns
the accumulated magnitude, the shift after the final group and the final
byte (from which the signed variants sign-extend), plus the reader. -/
def lebCore (maxBytes shift acc : Nat) (r : WasmReader) :
    Except VError (Nat × Nat × Nat × WasmReader) :=
  match maxBytes with
  | 0 => .error .LebTooLong
  | mb + 1 =>
      match r.read_u8 with
      | .error e => .error e
      | .ok (b, r1) =>
          let acc1 := acc + b % 128 * 2 ^ shift
          if b < 128 then .ok (acc1, shift + 7, b, r1)
          else lebCore mb (shift + 7) acc1 r1

/-- Modelled from the spec: `read_var_u32` (section 4.A). -/
def WasmReader.read_var_u32 (r : WasmReader) : Except VError (Nat × WasmReader) :=
  match lebCore 5 0 0 r with
  | .error e => .error e
  | .ok (v, _, _, r1) => .ok (v, r1)

/-- Modelled from the spec: signed LEB128 finalization — sign-extend when
bit 6 of the final byte is set. -/
def lebSigned (v endShift lastByte : Nat) : Int :=
  if lastByte / 64 % 2 = 1 then (v : Int) - 2 ^ endShift else (v : Int)

/-- Modelled from the spec: `read_var_i32` (section 4.A). -/
def WasmReader.read_var_i32 (r : WasmReader) : Except VError (Int × WasmReader) :=
  match lebCore 5 0 0 r with
  | .error e => .error e
  | .ok (v, sh, lb, r1) => .ok (lebSigned v sh lb, r1)

/-- Modelled from the spec: `read_var_i64` (section 4.A). -/
def WasmReader.read_var_i64 (r : WasmReader) : Except VError (Int × WasmReader) :=
  match lebCore 10 0 0 r with
  | .error e => .error e
  | .ok (v, sh, lb, r1) => .ok (lebSigned v sh lb, r1)

/-- Embedding of `RefType::read` (`src/core/reader/types/mod.rs` lines
89-99): peek the tag byte, accept 0x70 (FuncRef) and 0x6F (ExternRef) —
consuming the byte — and fail with InvalidRefType otherwise. -/
def refTypeRead (r : WasmReader) : Except VError (Nat × WasmReader) :=
  match r.peek_u8 with
  | .error e => .error e
  | .ok b =>
      if b = 0x70 ∨ b = 0x6F then .ok (b, { r with pc := r.pc + 1 })
      else .error .InvalidRefType

/-- Span into the module bytes (spec section 3): start offset and length. -/
structure Span where
  start : Nat
  len : Nat
  deriving DecidableEq, Repr

/-- Outcome of `read_constant_expression`: a span on success, a validation
error, a panic (for the arms that `.unwrap()` their immediate read), or
exhaustion of the structural-recursion fuel — never reached when the
wrapper supplies `bytes.length + 1`, every iteration consuming at least one
byte. -/
inductive ConstExprResult where
  | ok (sp : Span) (r : WasmReader)
  | err (e : VError)
  | panicked
  | fuelOut
  deriving DecidableEq, Repr

/-- Opcode bytes carrying an arm in `read_constant_expression`
(`src/validation/read_constant_expression.rs` lines 15-38): end 0x0B,
global.get 0x23, i32.const 0x41, i64.const 0x42, i32.add/sub/mul
0x6A/0x6B/0x6C, i64.add/sub/mul 0x7C/0x7D/0x7E, ref.null 0xD0 and ref.func
0xD2.  The byte values are modelled from the official binary format the
spec references, the opcode-constants module not being among the sources.
Note the absence of f32.const 0x43 and f64.const 0x44: the source has no
arm for either. -/
def constExprOpcodes : List Nat :=
  [0x0B, 0x23, 0x41, 0x42, 0x6A, 0x6B, 0x6C, 0x7C, 0x7D, 0x7E, 0xD0, 0xD2]

/-- Embedding of the loop body of `read_constant_expression`
(`read_constant_expression.rs` lines 8-39): read the first instruction byte
(any failure becomes ExprMissingEnd); `end` returns the span
`(start_pc, pc - start_pc + 1)`; the accepted opcodes consume their
immediates — `global.get`/`i32.const`/`i64.const` propagating reader
errors with `?`, `ref.null`/`ref.func` calling `.unwrap()` and hence
panicking on a reader error — and loop; any other byte yields
`InvalidInstr` carrying that byte. -/
def readConstExprLoop (fuel : Nat) (start_pc : Nat) (r : WasmReader) : ConstExprResult :=
  match fuel with
  | 0 => .fuelOut
  | fuel + 1 =>
      match r.read_u8 with
      | .error _ => .err .ExprMissingEnd
      | .ok (b, r1) =>
          if b = 0x0B then .ok ⟨start_pc, r1.pc - start_pc + 1⟩ r1
          else if b = 0x23 then
            match r1.read_var_u32 with
            | .error e => .err e
            | .ok (_, r2) => readConstExprLoop fuel start_pc r2
          else if b = 0x41 then
            match r1.read_var_i32 with
            | .error e => .err e
            | .ok (_, r2) => readConstExprLoop fuel start_pc r2
          else if b = 0x42 then
            match r1.read_var_i64 with
            | .error e => .err e
            | .ok (_, r2) => readConstExprLoop fuel start_pc r2
          else if b = 0x6A ∨ b = 0x6B ∨ b = 0x6C then readConstExprLoop fuel start_pc r1
          else if b = 0x7C ∨ b = 0x7D ∨ b = 0x7E then readConstExprLoop fuel start_pc r1
          else if b = 0xD0 then
            match refTypeRead r1 with
            | .error _ => .panicked
            | .ok (_, r2) => readConstExprLoop fuel start_pc r2
          else if b = 0xD2 then
            match r1.read_var_u32 with
            | .error _ => .panicked
            | .ok (_, r2) => readConstExprLoop fuel start_pc r2
          else .err (.InvalidInstr b)

/-- Embedding of `read_constant_expression`
(`read_constant_expression.rs` lines 5-40): capture `start_pc` and run the
loop; the fuel `bytes.length + 1` covers every possible iteration count. -/
def read_constant_expression (r : WasmReader) : ConstExprResult :=
  readConstExprLoop (r.bytes.length + 1) r.pc r

/-- One interpreter mutation of a linear memory: a `memory.grow` execution
with an arbitrary popped delta, or an in-place byte write.  Every other
memory-touching operation in the source — the store instructions, the
per-byte loops of `memory.init`, `memory.copy` and `memory.fill`, and the
instantiation-time copies of active data segments — writes single bytes
through bounds-checked windows, i.e. is a composition of `List.set`, which
never changes the length. -/
inductive MemStep : MemInst → MemInst → Prop where
  | grow (m : MemInst) (delta : Int) : MemStep m (memory_grow m delta).1
  | setByte (m : MemInst) (i b : Nat) : MemStep m ⟨m.maxPages, m.data.set i b⟩

/-- Memory states reachable from instantiation (`MemInst::new` on the
decoded memory type, `store.rs` lines 46-53) by interpreter steps. -/
inductive MemReachable (min : Nat) (maxPages : Option Nat) : MemInst → Prop where
  | init : MemReachable min maxPages (MemInst.new min maxPages)
  | step (m m' : MemInst) : MemReachable min maxPages m → MemStep m m' →
      MemReachable min maxPages m'

/-- Outcome of the `memory.init` arm: success, a runtime trap carrying the
memory at the point of the early return, a Rust panic (the `data.init[s]`
index), or the undefined behavior of the `unsafe get_unchecked_mut` on an
out-of-range data-segment index. -/
inductive MemInitOutcome where
  | ok (mem : List Nat)
  | trap (e : RuntimeError) (mem : List Nat)
  | panicked
  | undefinedBehavior
  deriving DecidableEq, Repr

/-- Two's-complement wrap of an integer into the i32 range
`[-2^31, 2^31)`: the release-profile result of Rust i32 arithmetic that
overflows.  (A debug build would panic at the same operation; either way
the mathematical value is lost.) -/
def wrap32 (x : Int) : Int := (x + 2 ^ 31) % 2 ^ 32 - 2 ^ 31

/-- Rust's `as u32` on an i32 value: two's-complement reinterpretation of
the low 32 bits. -/
def toU32 (x : Int) : Nat := (x % 2 ^ 32).toNat

/-- Rust's `as usize` on an i32 value on a 64-bit target: sign-extension,
so a negative i32 becomes a number near 2^64. -/
def toUsize (x : Int) : Nat := (x % 2 ^ 64).toNat

/-- Embedding of the per-byte copy loop of the `MEMORY_INIT` arm
(`interpreter_loop.rs` lines 2068-2097).  The cursors `d` and `s` are the
source's `i32` locals: the segment read `data.init[s as usize]`
sign-extends `s` (panicking — Rust's index check — when the result is at or
past the segment length), the store address is `d as u32`, and the
increments `d += 1`, `s += 1` wrap at `2^31` (release profile; a debug
build panics there).  `n` decrements from a non-negative i32 and cannot
wrap; it is the structural counter. -/
def memInitLoop (seg : List Nat) (mem : List Nat) (d s : Int) : Nat → MemInitOutcome
  | 0 => .ok mem
  | n + 1 =>
      if toUsize s < seg.length then
        if toU32 d + 1 ≤ mem.length then
          memInitLoop seg (mem.set (toU32 d) (seg.getD (toUsize s) 0 % 256))
            (wrap32 (d + 1)) (wrap32 (s + 1)) n
        else .trap .MemoryAccessOutOfBounds mem
      else .panicked

/-- Embedding of the `MEMORY_INIT` arm (`interpreter_loop.rs` lines
2044-2100): the data-segment index decoded from the bytecode indexes
`store.data` through `unsafe get_unchecked_mut` with no bounds check, so an
out-of-range index is undefined behavior; then `n`, `s`, `d` are popped as
signed i32 and checked — any negative value, or `s + n` past the segment
length or `d + n` past the memory length, returns MemoryAccessOutOfBounds
with the memory untouched; otherwise the per-byte loop copies the segment
bytes into the memory with i32 cursors. -/
def memory_init (dataSegs : List (List Nat)) (dataIdx : Nat) (mem : List Nat)
    (n s d : Int) : MemInitOutcome :=
  match dataSegs[dataIdx]? with
  | none => .undefinedBehavior
  | some seg =>
      if n < 0 ∨ s < 0 ∨ d < 0 then .trap .MemoryAccessOutOfBounds mem
      else if s.toNat + n.toNat > seg.length ∨ d.toNat + n.toNat > mem.length then
        .trap .MemoryAccessOutOfBounds mem
      else memInitLoop seg mem d s n.toNat

/-- Embedding of the per-byte copy loop of the `MEMORY_COPY` arm
(`interpreter_loop.rs` lines 2138-2209).  The cursors `d`, `s`, `n` are the
source's `i32` locals; here the counter is structural (`n` decrements from
a non-negative i32 and cannot wrap) while `d` and `s` keep their i32
semantics: the direction test `d <= s` is a signed comparison re-evaluated
every iteration, the descending temporaries `d + n - 1` / `s + n - 1`
(written with the current counter value `n + 1`) and the ascending
increments `d += 1`, `s += 1` wrap at `2^31` (release profile; debug builds
panic there), and the byte addresses are formed with `as u32`.  One byte is
loaded through the bounds-checked 1-byte window at the source cursor,
pushed as an i32, popped again, and its low byte stored through the
bounds-checked 1-byte window at the destination cursor.  Errors propagate
with the memory as written so far, matching the early `?` returns. -/
def memCopyLoop (mem : List Nat) (d s : Int) : Nat → (Option RuntimeError) × List Nat
  | 0 => (none, mem)
  | n + 1 =>
      let td := if d ≤ s then d else wrap32 (d + (n + 1) - 1)
      let ts := if d ≤ s then s else wrap32 (s + (n + 1) - 1)
      if toU32 ts + 1 ≤ mem.length then
        if toU32 td + 1 ≤ mem.length then
          let mem1 := mem.set (toU32 td) (mem.getD (toU32 ts) 0 % 256)
          if d ≤ s then memCopyLoop mem1 (wrap32 (d + 1)) (wrap32 (s + 1)) n
          else memCopyLoop mem1 d s n
        else (some .MemoryAccessOutOfBounds, mem)
      else (some .MemoryAccessOutOfBounds, mem)

/-- Embedding of the `MEMORY_COPY` arm (`interpreter_loop.rs` lines
2116-2212): pop `n`, `s`, `d` as signed i32; any negative value returns
MemoryAccessOutOfBounds with the memory untouched, as does `s + n` or
`d + n` past the memory length (both sums computed in `usize`); otherwise
the direction-aware per-byte loop runs on the i32 cursors.  (The arm
fetches memory 0 through `unsafe get_unchecked_mut`; a memory is
presupposed, as in the rest of the loop.) -/
def memory_copy (mem : List Nat) (n s d : Int) : (Option RuntimeError) × List Nat :=
  if n < 0 ∨ s < 0 ∨ d < 0 then (some .MemoryAccessOutOfBounds, mem)
  else if s.toNat + n.toNat > mem.length ∨ d.toNat + n.toNat > mem.length then
    (some .MemoryAccessOutOfBounds, mem)
  else memCopyLoop mem d s n.toNat

/-- Reference copy loop with ideal unbounded cursors — a proof device, not
an embedding: on the no-wrap domain (cursor arithmetic staying below
`2^31`) it coincides with the embedded `memCopyLoop`
(`memCopyLoop_eq_noWrap`), and outside that domain the two differ, which is
the content of the C5 counterexample. -/
def memCopyLoopNoWrap (mem : List Nat) (d s : Nat) : Nat → (Option RuntimeError) × List Nat
  | 0 => (none, mem)
  | n + 1 =>
      let td := if d ≤ s then d else d + n
      let ts := if d ≤ s then s else s + n
      if ts + 1 ≤ mem.length then
        if td + 1 ≤ mem.length then
          let mem1 := mem.set td (mem.getD ts 0 % 256)
          if d ≤ s then memCopyLoopNoWrap mem1 (d + 1) (s + 1) n
          else memCopyLoopNoWrap mem1 d s n
        else (some .MemoryAccessOutOfBounds, mem)
      else (some .MemoryAccessOutOfBounds, mem)

/-- Concrete memory of `2^31 + 4` bytes (2147483646 zeros followed by six
marked bytes) on which an in-bounds overlapping `memory.copy` drives the
i32 source cursor across `2^31`. -/
def cexMem : List Nat := List.replicate 2147483646 0 ++ [10, 20, 30, 40, 50, 60]


/-! Theorems. -/

/-- Pushing a list of values by folding `push_value` appends the list. -/
theorem foldl_push_value (l : List Value) (st : Stack) :
    l.foldl Stack.push_value st = { st with values := st.values ++ l } := by
  induction l generalizing st with
  | nil => simp
  | cons v t ih => simp [Stack.push_value, ih]

/-- C1: evaluation of the embedded `i64.store` and `f64.store` arms at a
concrete failing input.  On a 16-byte memory at effective address 0,
`i64.store` of the value 2^32 panics inside `copy_from_slice` (the narrowed
u32's 4-byte encoding against an 8-byte window) instead of performing the
claimed full-width 8-byte write, and `f64.store` panics likewise (8-byte
encoding against a 4-byte window); the claim's behavior would be the
successful 8-byte write shown in the third conjunct. -/
theorem i64_f64_store_code_bug_behavior :
    i64_store (List.replicate 16 0) 0 0 (2 ^ 32) = .panicked ∧
    f64_store (List.replicate 16 0) 0 0 1 = .panicked ∧
    i64_store_claim (List.replicate 16 0) 0 0 (2 ^ 32) =
      .ok ([0, 0, 0, 0, 1, 0, 0, 0] ++ List.replicate 8 0) := by
  refine ⟨by decide, by decide, by decide⟩

/-- C3 counterexample: a module whose memory declares max = 1 page and whose
active data segment resolves to offset 65536 with a 1-byte payload exceeds
the maximum byte size; the claim says `validate` returns a validation error
as an `Err` value without aborting the process, but the embedded source path
panics (process abort) — the validator has no `Err`-returning branch for
this condition at all. -/
theorem data_segment_bounds_panic_counterexample :
    dataSegmentBoundsCheck 65536 1 (some 1) = .panicked ∧
    DataBoundsOutcome.panicked ≠ DataBoundsOutcome.accepted := by
  exact ⟨by decide, by decide⟩

/-- C3 amended: on an active data segment whose resolved offset plus payload
length exceeds the memory's maximum byte size (declared max pages times
65536, with 4294967296 when no max is declared), `validate` panics — it
aborts instead of returning an `Err`; within bounds the segment is
accepted. -/
theorem data_segment_bounds_panic_iff (val len : Nat) (memMax : Option Nat) :
    (dataSegmentBoundsCheck val len memMax = .panicked ↔
      val + len > (memMax.getD MAX_PAGES) * PAGE_SIZE) ∧
    (dataSegmentBoundsCheck val len memMax = .accepted ↔
      val + len ≤ (memMax.getD MAX_PAGES) * PAGE_SIZE) := by
  unfold dataSegmentBoundsCheck
  rcases memMax with _ | mx
  · simp only [Option.getD]
    constructor
    · constructor
      · intro h
        by_cases hgt : len + val > MAX_BYTES
        · simp only [MAX_BYTES, MAX_PAGES, PAGE_SIZE] at *; omega
        · simp [hgt] at h
      · intro h
        have : len + val > MAX_BYTES := by
          simp only [MAX_BYTES, MAX_PAGES, PAGE_SIZE] at *; omega
        simp [this]
    · constructor
      · intro h
        by_cases hgt : len + val > MAX_BYTES
        · simp [hgt] at h
        · simp only [MAX_BYTES, MAX_PAGES, PAGE_SIZE] at *; omega
      · intro h
        have : ¬ len + val > MAX_BYTES := by
          simp only [MAX_BYTES, MAX_PAGES, PAGE_SIZE] at *; omega
        simp [this]
  · simp only [Option.getD]
    by_cases hmx : mx = MAX_PAGES
    · subst hmx
      have hbytes : MAX_PAGES * PAGE_SIZE = MAX_BYTES := by
        simp [MAX_PAGES, PAGE_SIZE, MAX_BYTES]
      simp only [ne_eq, not_true_eq_false, if_false, hbytes]
      constructor
      · constructor
        · intro h
          by_cases hgt : len + val > MAX_BYTES
          · omega
          · simp [hgt] at h
        · intro h
          have : len + val > MAX_BYTES := by omega
          simp [this]
      · constructor
        · intro h
          by_cases hgt : len + val > MAX_BYTES
          · simp [hgt] at h
          · omega
        · intro h
          have : ¬ len + val > MAX_BYTES := by omega
          simp [this]
    · simp only [ne_eq, hmx, not_false_eq_true, if_true]
      constructor
      · constructor
        · intro h
          by_cases hgt : len + val > mx * PAGE_SIZE
          · omega
          · simp [hgt] at h
        · intro h
          have : len + val > mx * PAGE_SIZE := by omega
          simp [this]
      · constructor
        · intro h
          by_cases hgt : len + val > mx * PAGE_SIZE
          · simp [hgt] at h
          · omega
        · intro h
          have : ¬ len + val > mx * PAGE_SIZE := by omega
          simp [this]

/-- C6: the `MEMORY_GROW` arm agrees pointwise with the claim's description:
for `delta < 0` or current pages + `delta` above the configured maximum
(declared max, 65536 when absent) it pushes -1 and leaves the data
unchanged; otherwise it pushes the previous page count and appends exactly
`delta * 65536` zero bytes. -/
theorem memory_grow_matches_claim (m : MemInst) (delta : Int) :
    memory_grow m delta = memory_grow_claim m delta := by
  rcases m with ⟨maxPages, data⟩
  rcases maxPages with _ | mx <;>
    simp only [memory_grow, memory_grow_claim, Option.getD_none, Option.getD_some,
      MAX_PAGES] <;>
    split_ifs <;>
    first
      | rfl
      | (exfalso; omega)

/-- C8: for `i32.div_s`/`i64.div_s` the DivideBy0 error appears iff the
popped divisor (the second operand, the stack top, called `dividend` in the
source) is 0, and UnrepresentableResult appears iff the dividend is the
minimum signed value and the divisor is -1; `i32.rem_s`/`i64.rem_s` error
with DivideBy0 iff the divisor is 0 — and with nothing else — push 0 on
MIN % -1, and in all remaining cases the truncated signed quotient
respectively remainder of the dividend by the divisor is pushed. -/
theorem div_rem_s_characterization :
    (∀ dividend divisor : Int,
      (i32_div_s dividend divisor = .error .DivideBy0 ↔ dividend = 0) ∧
      (i32_div_s dividend divisor = .error .UnrepresentableResult ↔
        divisor = -(2 ^ 31) ∧ dividend = -1) ∧
      (dividend ≠ 0 → ¬(divisor = -(2 ^ 31) ∧ dividend = -1) →
        i32_div_s dividend divisor = .ok (Int.tdiv divisor dividend)) ∧
      (i32_rem_s dividend divisor = .error .DivideBy0 ↔ dividend = 0) ∧
      (∀ e, i32_rem_s dividend divisor = .error e → e = .DivideBy0) ∧
      (dividend = -1 → divisor = -(2 ^ 31) → i32_rem_s dividend divisor = .ok 0) ∧
      (dividend ≠ 0 → ¬(divisor = -(2 ^ 31) ∧ dividend = -1) →
        i32_rem_s dividend divisor = .ok (Int.tmod divisor dividend))) ∧
    (∀ dividend divisor : Int,
      (i64_div_s dividend divisor = .error .DivideBy0 ↔ dividend = 0) ∧
      (i64_div_s dividend divisor = .error .UnrepresentableResult ↔
        divisor = -(2 ^ 63) ∧ dividend = -1) ∧
      (dividend ≠ 0 → ¬(divisor = -(2 ^ 63) ∧ dividend = -1) →
        i64_div_s dividend divisor = .ok (Int.tdiv divisor dividend)) ∧
      (i64_rem_s dividend divisor = .error .DivideBy0 ↔ dividend = 0) ∧
      (∀ e, i64_rem_s dividend divisor = .error e → e = .DivideBy0) ∧
      (dividend = -1 → divisor = -(2 ^ 63) → i64_rem_s dividend divisor = .ok 0) ∧
      (dividend ≠ 0 → ¬(divisor = -(2 ^ 63) ∧ dividend = -1) →
        i64_rem_s dividend divisor = .ok (Int.tmod divisor dividend))) := by
  constructor <;>
    (intro dividend divisor
     refine ⟨?_, ?_, ?_, ?_, ?_, ?_, ?_⟩ <;>
       (intros
        simp only [i32_div_s, i32_rem_s, i64_div_s, i64_rem_s] at *
        split_ifs at * <;> simp_all))

/-- C8 witness: the characterization applied at concrete operands: MIN and
-1 trap UnrepresentableResult for div_s, MIN rem -1 yields 0 for rem_s, and
a zero stack-top divisor traps DivideBy0. -/
theorem div_rem_s_characterization_witness :
    i32_div_s (-1) (-(2 ^ 31)) = .error .UnrepresentableResult ∧
    i32_rem_s (-1) (-(2 ^ 31)) = .ok 0 ∧
    i64_div_s 0 5 = .error .DivideBy0 ∧
    i32_div_s 3 7 = .ok 2 := by
  refine ⟨?_, ?_, ?_, ?_⟩
  · exact ((div_rem_s_characterization.1 (-1) (-(2 ^ 31))).2.1).mpr ⟨rfl, rfl⟩
  · exact ((div_rem_s_characterization.1 (-1) (-(2 ^ 31))).2.2.2.2.2.1) rfl rfl
  · exact ((div_rem_s_characterization.2 0 5).1).mpr rfl
  · have h := (div_rem_s_characterization.1 3 7).2.2.1 (by decide) (by decide)
    exact h.trans (congrArg Except.ok (by decide))

/-- C9: a first instruction byte matched by none of the implemented opcode
arms is silently consumed: the dispatch neither returns an error nor
reaches any arm, the loop continues at the following byte, and the value
stack, the call frames and the store components are unchanged. -/
theorem unknown_opcode_skipped (bytes : List Nat) (st : MachineState) (b : Nat)
    (hb : bytes[st.pc]? = some b) (hni : isImplementedFirstByte b = false) :
    runDispatch bytes st = .continueWith { st with pc := st.pc + 1 } ∧
    ({ st with pc := st.pc + 1 } : MachineState).stack = st.stack ∧
    ({ st with pc := st.pc + 1 } : MachineState).mems = st.mems ∧
    ({ st with pc := st.pc + 1 } : MachineState).dataSegs = st.dataSegs := by
  refine ⟨?_, rfl, rfl, rfl⟩
  unfold runDispatch
  rw [hb]
  simp [hni]

/-- C9 witness: the unimplemented byte 0x05 (the `else` opcode) at pc 0 is
skipped with the state otherwise unchanged. -/
theorem unknown_opcode_skipped_witness :
    runDispatch [0x05] ⟨0, ⟨[], []⟩, [], []⟩ = .continueWith ⟨1, ⟨[], []⟩, [], []⟩ := by
  exact (unknown_opcode_skipped [0x05] ⟨0, ⟨[], []⟩, [], []⟩ 0x05 rfl rfl).1

/-- C4 counterexample: on the concrete outermost state with one value and
one frame of return arity 1, `end` pops the outermost frame (0 frames
remain) while `return` leaves it in place (1 frame remains), so the two
final states do not have the same call-frame count, contrary to the
claim. -/
theorem return_vs_end_framecount_counterexample :
    (run_end ⟨[Value.I32 7], [⟨0, 1, [], 0, 0⟩]⟩).1.frames.length = 0 ∧
    (run_return 1 ⟨[Value.I32 7], [⟨0, 1, [], 0, 0⟩]⟩).1.frames.length = 1 ∧
    (run_end ⟨[Value.I32 7], [⟨0, 1, [], 0, 0⟩]⟩).1.frames.length ≠
      (run_return 1 ⟨[Value.I32 7], [⟨0, 1, [], 0, 0⟩]⟩).1.frames.length := by
  refine ⟨by decide, by decide, by decide⟩

/-- C4 amended: at the outermost call frame, `return` and `end` terminate
the invocation with identical operand-stack values — the top `return_arity`
values are preserved and the extra values above the frame base are
discarded — and both finish with the same Ok invocation result; but
`return` leaves the outermost call-frame record (with its locals) on the
frame stack (count 1) while `end` pops it (count 0). -/
theorem return_matches_end_outermost (f : CallFrame) (vals : List Value) (typeArity : Nat)
    (hA : f.return_arity = typeArity)
    (hb : f.value_stack_base + typeArity ≤ vals.length) :
    (run_return typeArity ⟨vals, [f]⟩).1.values = (run_end ⟨vals, [f]⟩).1.values ∧
    (run_return typeArity ⟨vals, [f]⟩).2 = .finished ∧
    (run_end ⟨vals, [f]⟩).2 = .finished ∧
    (run_end ⟨vals, [f]⟩).1.frames.length = 0 ∧
    (run_return typeArity ⟨vals, [f]⟩).1.frames.length = 1 := by
  have hmin : min f.value_stack_base (vals.length - typeArity) = f.value_stack_base := by
    omega
  simp [run_end, run_return, Stack.pop_stackframe, Stack.pop_tail_iter,
    Stack.clear_callframe_values, Stack.callframe_count, foldl_push_value,
    List.take_take, hmin, hA]

/-- C4 witness: the amended equivalence applied at the concrete outermost
state of the counterexample. -/
theorem return_matches_end_witness :
    (run_return 1 ⟨[Value.I32 7], [⟨0, 1, [], 0, 0⟩]⟩).1.values =
      (run_end ⟨[Value.I32 7], [⟨0, 1, [], 0, 0⟩]⟩).1.values ∧
    (run_return 1 ⟨[Value.I32 7], [⟨0, 1, [], 0, 0⟩]⟩).2 = .finished ∧
    (run_end ⟨[Value.I32 7], [⟨0, 1, [], 0, 0⟩]⟩).2 = .finished ∧
    (run_end ⟨[Value.I32 7], [⟨0, 1, [], 0, 0⟩]⟩).1.frames.length = 0 ∧
    (run_return 1 ⟨[Value.I32 7], [⟨0, 1, [], 0, 0⟩]⟩).1.frames.length = 1 := by
  exact return_matches_end_outermost ⟨0, 1, [], 0, 0⟩ [Value.I32 7] 1 rfl (by decide)

/-- Errors raised by `read_u8` are Eof only. -/
theorem read_u8_error (r : WasmReader) (e : VError)
    (h : r.read_u8 = .error e) : e = .Eof := by
  unfold WasmReader.read_u8 at h
  cases hb : r.bytes[r.pc]? <;> rw [hb] at h <;> dsimp only at h
  · simp only [Except.error.injEq] at h
    exact h.symm
  · simp at h

/-- Errors raised by the LEB128 loop are Eof or LebTooLong only. -/
theorem lebCore_error (maxBytes shift acc : Nat) (r : WasmReader) (e : VError)
    (h : lebCore maxBytes shift acc r = .error e) : e = .Eof ∨ e = .LebTooLong := by
  induction maxBytes generalizing shift acc r with
  | zero =>
      simp only [lebCore] at h
      simp at h
      simp [← h]
  | succ mb ih =>
      rw [lebCore] at h
      cases hr : r.read_u8 with
      | error e1 =>
          rw [hr] at h
          dsimp only at h
          have he1 := read_u8_error r e1 hr
          simp only [Except.error.injEq] at h
          subst h
          exact Or.inl he1
      | ok p =>
          rw [hr] at h
          dsimp only at h
          by_cases hlt : p.1 < 128
          · simp [hlt] at h
          · simp only [hlt, if_false] at h
            exact ih _ _ _ h

/-- Errors raised by `read_var_u32` are Eof or LebTooLong only. -/
theorem read_var_u32_error (r : WasmReader) (e : VError)
    (h : WasmReader.read_var_u32 r = .error e) : e = .Eof ∨ e = .LebTooLong := by
  unfold WasmReader.read_var_u32 at h
  cases hc : lebCore 5 0 0 r <;> rw [hc] at h <;> dsimp only at h
  · simp only [Except.error.injEq] at h
    exact h ▸ lebCore_error _ _ _ _ _ hc
  · simp at h

/-- Errors raised by `read_var_i32` are Eof or LebTooLong only. -/
theorem read_var_i32_error (r : WasmReader) (e : VError)
    (h : WasmReader.read_var_i32 r = .error e) : e = .Eof ∨ e = .LebTooLong := by
  unfold WasmReader.read_var_i32 at h
  cases hc : lebCore 5 0 0 r <;> rw [hc] at h <;> dsimp only at h
  · simp only [Except.error.injEq] at h
    exact h ▸ lebCore_error _ _ _ _ _ hc
  · simp at h

/-- Errors raised by `read_var_i64` are Eof or LebTooLong only. -/
theorem read_var_i64_error (r : WasmReader) (e : VError)
    (h : WasmReader.read_var_i64 r = .error e) : e = .Eof ∨ e = .LebTooLong := by
  unfold WasmReader.read_var_i64 at h
  cases hc : lebCore 10 0 0 r <;> rw [hc] at h <;> dsimp only at h
  · simp only [Except.error.injEq] at h
    exact h ▸ lebCore_error _ _ _ _ _ hc
  · simp at h

/-- An `InvalidInstr` escaping the constant-expression loop always carries
a byte outside the accepted opcode set. -/
theorem readConstExprLoop_invalidInstr :
    ∀ (fuel start_pc : Nat) (r : WasmReader) (c : Nat),
      readConstExprLoop fuel start_pc r = .err (.InvalidInstr c) →
      c ∉ constExprOpcodes := by
  intro fuel
  induction fuel with
  | zero => intro s r c h; simp [readConstExprLoop] at h
  | succ n ih =>
      intro s r c h
      rw [readConstExprLoop] at h
      cases hr : r.read_u8 with
      | error e1 => rw [hr] at h; dsimp only at h; simp at h
      | ok p =>
          rw [hr] at h
          dsimp only at h
          obtain ⟨b, r1⟩ := p
          by_cases h0 : b = 0x0B
          · simp [h0] at h
          · rw [if_neg h0] at h
            by_cases h1 : b = 0x23
            · rw [if_pos h1] at h
              cases hv : r1.read_var_u32 with
              | error e =>
                  rw [hv] at h
                  dsimp only at h
                  simp only [ConstExprResult.err.injEq] at h
                  rcases read_var_u32_error r1 e hv with he | he <;> simp [he] at h
              | ok q => rw [hv] at h; exact ih _ _ _ h
            · rw [if_neg h1] at h
              by_cases h2 : b = 0x41
              · rw [if_pos h2] at h
                cases hv : r1.read_var_i32 with
                | error e =>
                    rw [hv] at h
                    dsimp only at h
                    simp only [ConstExprResult.err.injEq] at h
                    rcases read_var_i32_error r1 e hv with he | he <;> simp [he] at h
                | ok q => rw [hv] at h; exact ih _ _ _ h
              · rw [if_neg h2] at h
                by_cases h3 : b = 0x42
                · rw [if_pos h3] at h
                  cases hv : r1.read_var_i64 with
                  | error e =>
                      rw [hv] at h
                      dsimp only at h
                      simp only [ConstExprResult.err.injEq] at h
                      rcases read_var_i64_error r1 e hv with he | he <;> simp [he] at h
                  | ok q => rw [hv] at h; exact ih _ _ _ h
                · rw [if_neg h3] at h
                  by_cases h4 : b = 0x6A ∨ b = 0x6B ∨ b = 0x6C
                  · rw [if_pos h4] at h; exact ih _ _ _ h
                  · rw [if_neg h4] at h
                    by_cases h5 : b = 0x7C ∨ b = 0x7D ∨ b = 0x7E
                    · rw [if_pos h5] at h; exact ih _ _ _ h
                    · rw [if_neg h5] at h
                      by_cases h6 : b = 0xD0
                      · rw [if_pos h6] at h
                        cases hv : refTypeRead r1 with
                        | error e => rw [hv] at h; dsimp only at h; simp at h
                        | ok q => rw [hv] at h; exact ih _ _ _ h
                      · rw [if_neg h6] at h
                        by_cases h7 : b = 0xD2
                        · rw [if_pos h7] at h
                          cases hv : r1.read_var_u32 with
                          | error e => rw [hv] at h; dsimp only at h; simp at h
                          | ok q => rw [hv] at h; exact ih _ _ _ h
                        · rw [if_neg h7] at h
                          simp only [ConstExprResult.err.injEq, VError.InvalidInstr.injEq] at h
                          subst h
                          simp only [constExprOpcodes, List.mem_cons, List.not_mem_nil, or_false]
                          intro hmem
                          rcases hmem with hm | hm | hm | hm | hm | hm | hm | hm | hm | hm | hm | hm <;>
                            first
                              | exact h0 hm
                              | exact h1 hm
                              | exact h2 hm
                              | exact h3 hm
                              | exact h4 (Or.inl hm)
                              | exact h4 (Or.inr (Or.inl hm))
                              | exact h4 (Or.inr (Or.inr hm))
                              | exact h5 (Or.inl hm)
                              | exact h5 (Or.inr (Or.inl hm))
                              | exact h5 (Or.inr (Or.inr hm))
                              | exact h6 hm
                              | exact h7 hm


/-- C2 counterexample: an expression beginning with the f32.const opcode
(0x43) — and likewise f64.const (0x44) — is not accepted by
`read_constant_expression`: it is rejected with `InvalidInstr` carrying
that byte, contrary to the claim that the f32.const/f64.const opcodes are
in the accepted set. -/
theorem const_expr_fconst_rejected :
    read_constant_expression ⟨[0x43, 0, 0, 0, 0, 0x0B], 0⟩ = .err (.InvalidInstr 0x43) ∧
    read_constant_expression ⟨[0x44, 0, 0, 0, 0, 0, 0, 0, 0x0B], 0⟩ =
      .err (.InvalidInstr 0x44) := by
  exact ⟨by decide, by decide⟩

/-- C2 amended: `read_constant_expression` accepts exactly the opcodes
global.get, i32.const, i64.const, ref.null, ref.func, i32.add, i32.sub,
i32.mul, i64.add, i64.sub, i64.mul and end; f32.const and f64.const are
not accepted; any first byte outside the set — which includes 0x43 and
0x44 — yields `Error::InvalidInstr` carrying that byte, an `InvalidInstr`
never carries a byte of the set, and reaching end-of-input before an `end`
opcode yields `Error::ExprMissingEnd`. -/
theorem const_expr_classification :
    (∀ r : WasmReader, r.bytes[r.pc]? = none →
      read_constant_expression r = .err .ExprMissingEnd) ∧
    (∀ (r : WasmReader) (b : Nat), r.bytes[r.pc]? = some b →
      b ∉ constExprOpcodes → read_constant_expression r = .err (.InvalidInstr b)) ∧
    (∀ (r : WasmReader) (c : Nat),
      read_constant_expression r = .err (.InvalidInstr c) → c ∉ constExprOpcodes) ∧
    (0x43 ∉ constExprOpcodes ∧ 0x44 ∉ constExprOpcodes) := by
  refine ⟨?_, ?_, ?_, by decide, by decide⟩
  · intro r hnone
    unfold read_constant_expression
    rw [readConstExprLoop]
    simp [WasmReader.read_u8, hnone]
  · intro r b hsome hmem
    unfold read_constant_expression
    rw [readConstExprLoop]
    simp only [WasmReader.read_u8, hsome]
    simp only [constExprOpcodes, List.mem_cons, List.not_mem_nil, or_false] at hmem
    push_neg at hmem
    obtain ⟨m0, m1, m2, m3, m4, m5, m6, m7, m8, m9, m10, m11⟩ := hmem
    simp [m0, m1, m2, m3, m4, m5, m6, m7, m8, m9, m10, m11]
  · intro r c h
    exact readConstExprLoop_invalidInstr _ _ _ _ h

/-- C2 witness: the classification applied at concrete readers — an empty
input yields ExprMissingEnd, and the byte 0x45 (i32.eqz, outside the set)
yields InvalidInstr 0x45. -/
theorem const_expr_classification_witness :
    read_constant_expression ⟨[], 0⟩ = .err .ExprMissingEnd ∧
    read_constant_expression ⟨[0x45, 0x0B], 0⟩ = .err (.InvalidInstr 0x45) := by
  constructor
  · exact const_expr_classification.1 ⟨[], 0⟩ rfl
  · exact const_expr_classification.2.1 ⟨[0x45, 0x0B], 0⟩ 0x45 rfl (by decide)

/-- Reachable memories keep their declared maximum. -/
theorem memReachable_maxPages (min : Nat) (maxPages : Option Nat) (m : MemInst)
    (hm : MemReachable min maxPages m) : m.maxPages = maxPages := by
  induction hm with
  | init => rfl
  | step m m' _ hstep ih =>
      cases hstep with
      | grow delta =>
          simp only [memory_grow]
          split_ifs <;> simpa [MemInst.grow] using ih
      | setByte i b => simpa using ih

/-- C7: every memory state reachable from instantiation keeps its data
length a multiple of PAGE_SIZE = 65536 with the page count at most the
configured maximum (the declared max, or 2^16 when absent), and no step
ever decreases the length. -/
theorem mem_invariant (min : Nat) (maxPages : Option Nat)
    (hmin : min ≤ maxPages.getD 65536) :
    (∀ m : MemInst, MemReachable min maxPages m →
      m.data.length % 65536 = 0 ∧ m.data.length / 65536 ≤ maxPages.getD 65536) ∧
    (∀ m m' : MemInst, MemStep m m' → m.data.length ≤ m'.data.length) := by
  constructor
  · intro m hm
    induction hm with
    | init =>
        constructor
        · simp [MemInst.new, PAGE_SIZE]
        · simp only [MemInst.new, List.length_replicate, PAGE_SIZE]
          omega
    | step m m' hprev hstep ih =>
        have ihmax := memReachable_maxPages min maxPages m hprev
        obtain ⟨ihmod, ihdiv⟩ := ih
        cases hstep with
        | grow delta =>
            have hup : (match m.maxPages with | some mx => mx | none => MAX_PAGES) =
                maxPages.getD 65536 := by
              rw [ihmax]; rcases maxPages with _ | mx <;> simp [MAX_PAGES]
            simp only [memory_grow, hup]
            by_cases hc : delta < 0 ∨ delta.toNat + m.size > maxPages.getD 65536
            · rw [if_pos hc]
              exact ⟨ihmod, ihdiv⟩
            · rw [if_neg hc]
              push_neg at hc
              have hsize : m.size = m.data.length / 65536 := by
                simp [MemInst.size, PAGE_SIZE]
              obtain ⟨-, hc2⟩ := hc
              rw [hsize] at hc2
              constructor <;>
                simp only [MemInst.grow, List.length_append, List.length_replicate,
                  PAGE_SIZE] <;>
                omega
        | setByte i b =>
            exact ⟨by simpa using ihmod, by simpa using ihdiv⟩
  · intro m m' hstep
    cases hstep with
    | grow delta =>
        simp only [memory_grow]
        split_ifs <;> simp [MemInst.grow]
    | setByte i b => simp

/-- C7 witness: the invariant applied to the freshly instantiated memory of
a type with min = 1 page and max = 2 pages. -/
theorem mem_invariant_witness :
    (MemInst.new 1 (some 2)).data.length % 65536 = 0 ∧
    (MemInst.new 1 (some 2)).data.length / 65536 ≤ (some 2).getD 65536 := by
  exact (mem_invariant 1 (some 2) (by decide)).1 (MemInst.new 1 (some 2)) MemReachable.init

/-- Values already inside `[-2^31, 2^31)` are fixed by the i32 wrap. -/
theorem wrap32_eq_self (x : Int) (h1 : -(2 ^ 31) ≤ x) (h2 : x < 2 ^ 31) :
    wrap32 x = x := by
  unfold wrap32
  have h3 : (0 : Int) ≤ x + 2 ^ 31 := by omega
  have h4 : x + 2 ^ 31 < 2 ^ 32 := by omega
  rw [Int.emod_eq_of_lt h3 h4]
  omega

/-- On natural values below `2^32`, `as u32` is the identity. -/
theorem toU32_coe (s : Nat) (h : s < 2 ^ 32) : toU32 (s : Int) = s := by
  unfold toU32
  have h0 : (0 : Int) ≤ (s : Int) := by positivity
  have h1 : (s : Int) < 2 ^ 32 := by exact_mod_cast h
  rw [Int.emod_eq_of_lt h0 h1, Int.toNat_natCast]

/-- On natural values below `2^64`, `as usize` is the identity. -/
theorem toUsize_coe (s : Nat) (h : s < 2 ^ 64) : toUsize (s : Int) = s := by
  unfold toUsize
  have h0 : (0 : Int) ≤ (s : Int) := by positivity
  have h1 : (s : Int) < 2 ^ 64 := by exact_mod_cast h
  rw [Int.emod_eq_of_lt h0 h1, Int.toNat_natCast]

/-- Casts of naturals below `2^31` are fixed by the i32 wrap. -/
theorem wrap32_natCast (s : Nat) (h : s < 2 ^ 31) : wrap32 (s : Int) = (s : Int) := by
  apply wrap32_eq_self
  · have : (0 : Int) ≤ (s : Int) := by positivity
    omega
  · exact_mod_cast h

/-- Incrementing a cast natural with the successor below `2^31` wraps to
nothing. -/
theorem wrap32_coe_succ (s : Nat) (h : s + 1 < 2 ^ 31) :
    wrap32 ((s : Int) + 1) = ((s + 1 : Nat) : Int) := by
  have hc : ((s : Int) + 1) = ((s + 1 : Nat) : Int) := by push_cast; ring
  rw [hc, wrap32_natCast _ h]

/-- Under the pre-checked bounds and with both cursor sums inside the i32
range, the `memory.init` copy loop finishes without error or panic and
preserves the memory length. -/
theorem memInitLoop_ok (seg : List Nat) :
    ∀ (n : Nat) (mem : List Nat) (d s : Nat),
      s + n ≤ seg.length → d + n ≤ mem.length →
      s + n ≤ 2 ^ 31 → d + n ≤ 2 ^ 31 →
      ∃ m', memInitLoop seg mem (d : Int) (s : Int) n = .ok m' ∧
        m'.length = mem.length := by
  intro n
  induction n with
  | zero => intro mem d s h1 h2 h3 h4; exact ⟨mem, rfl, rfl⟩
  | succ k ih =>
      intro mem d s h1 h2 h3 h4
      have hsz : toUsize (s : Int) = s := toUsize_coe s (by omega)
      have hdz : toU32 (d : Int) = d := toU32_coe d (by omega)
      rcases Nat.eq_zero_or_pos k with rfl | hk
      · refine ⟨mem.set d (seg.getD s 0 % 256), ?_, by simp⟩
        simp only [memInitLoop, hsz, hdz]
        rw [if_pos (show s < seg.length by omega),
          if_pos (show d + 1 ≤ mem.length by omega)]
      · have hw1 : wrap32 ((d : Int) + 1) = ((d + 1 : Nat) : Int) :=
          wrap32_coe_succ d (by omega)
        have hw2 : wrap32 ((s : Int) + 1) = ((s + 1 : Nat) : Int) :=
          wrap32_coe_succ s (by omega)
        obtain ⟨m', hm', hlen⟩ :=
          ih (mem.set d (seg.getD s 0 % 256)) (d + 1) (s + 1) (by omega)
            (by simp only [List.length_set]; omega) (by omega) (by omega)
        refine ⟨m', ?_, ?_⟩
        · simp only [memInitLoop, hsz, hdz]
          rw [if_pos (show s < seg.length by omega),
            if_pos (show d + 1 ≤ mem.length by omega), hw1, hw2]
          exact hm'
        · simp only [List.length_set] at hlen
          exact hlen

/-- C10: `memory.init` indexes `store.data` without any bounds check: an
out-of-range decoded data index is undefined behavior and never one of the
runtime-error returns, so the arm's semantics — the MemoryAccessOutOfBounds
errors for negative or out-of-range `d`, `s`, `n`, and the successful copy
— are defined exactly under the precondition that the data index is below
the number of data segments in the store. -/
theorem memory_init_unchecked_data_index :
    (∀ (dataSegs : List (List Nat)) (dataIdx : Nat) (mem : List Nat) (n s d : Int),
      dataSegs.length ≤ dataIdx →
      memory_init dataSegs dataIdx mem n s d = .undefinedBehavior) ∧
    (∀ (dataSegs : List (List Nat)) (dataIdx : Nat) (mem : List Nat) (n s d : Int)
      (e : RuntimeError) (m' : List Nat),
      memory_init dataSegs dataIdx mem n s d = .trap e m' → dataIdx < dataSegs.length) ∧
    (∀ (dataSegs : List (List Nat)) (dataIdx : Nat) (mem : List Nat) (n s d : Int),
      dataIdx < dataSegs.length → (n < 0 ∨ s < 0 ∨ d < 0) →
      memory_init dataSegs dataIdx mem n s d = .trap .MemoryAccessOutOfBounds mem) ∧
    (∀ (dataSegs : List (List Nat)) (dataIdx : Nat) (mem : List Nat) (n s d : Int)
      (seg : List Nat), dataSegs[dataIdx]? = some seg →
      ¬(n < 0 ∨ s < 0 ∨ d < 0) →
      (s.toNat + n.toNat > seg.length ∨ d.toNat + n.toNat > mem.length) →
      memory_init dataSegs dataIdx mem n s d = .trap .MemoryAccessOutOfBounds mem) ∧
    (∀ (dataSegs : List (List Nat)) (dataIdx : Nat) (mem : List Nat) (n s d : Int)
      (seg : List Nat), dataSegs[dataIdx]? = some seg →
      ¬(n < 0 ∨ s < 0 ∨ d < 0) →
      s.toNat + n.toNat ≤ seg.length → d.toNat + n.toNat ≤ mem.length →
      s.toNat + n.toNat ≤ 2 ^ 31 → d.toNat + n.toNat ≤ 2 ^ 31 →
      ∃ m', memory_init dataSegs dataIdx mem n s d = .ok m') := by
  refine ⟨?_, ?_, ?_, ?_, ?_⟩
  · intro dataSegs dataIdx mem n s d hle
    unfold memory_init
    have : dataSegs[dataIdx]? = none := by
      simp [List.getElem?_eq_none_iff]; omega
    rw [this]
  · intro dataSegs dataIdx mem n s d e m' h
    by_cases hlt : dataIdx < dataSegs.length
    · exact hlt
    · exfalso
      unfold memory_init at h
      have : dataSegs[dataIdx]? = none := by
        simp [List.getElem?_eq_none_iff]; omega
      rw [this] at h
      simp at h
  · intro dataSegs dataIdx mem n s d hlt hneg
    unfold memory_init
    have hseg : dataSegs[dataIdx]? = some (dataSegs.get ⟨dataIdx, hlt⟩) :=
      List.getElem?_eq_getElem hlt
    rw [hseg]
    simp [hneg]
  · intro dataSegs dataIdx mem n s d seg hseg hneg hoob
    unfold memory_init
    rw [hseg]
    simp only [hneg, if_false, hoob, if_true]
  · intro dataSegs dataIdx mem n s d seg hseg hneg h1 h2 h3 h4
    unfold memory_init
    rw [hseg]
    simp only [hneg, if_false]
    have hno : ¬(s.toNat + n.toNat > seg.length ∨ d.toNat + n.toNat > mem.length) := by
      omega
    simp only [hno, if_false]
    obtain ⟨m', hm', -⟩ := memInitLoop_ok seg n.toNat mem d.toNat s.toNat h1 h2 h3 h4
    have hdc : ((d.toNat : Nat) : Int) = d := Int.toNat_of_nonneg (by omega)
    have hsc : ((s.toNat : Nat) : Int) = s := Int.toNat_of_nonneg (by omega)
    rw [hdc, hsc] at hm'
    exact ⟨m', hm'⟩

/-- C10 witness: the characterization applied concretely — data index 1
with a single segment is undefined behavior; data index 0 with negative `n`
traps; in-bounds operands succeed. -/
theorem memory_init_unchecked_witness :
    memory_init [[1, 2]] 1 [0, 0] 1 0 0 = .undefinedBehavior ∧
    memory_init [[1, 2]] 0 [0, 0] (-1) 0 0 = .trap .MemoryAccessOutOfBounds [0, 0] ∧
    ∃ m', memory_init [[1, 2]] 0 [0, 0] 2 0 0 = .ok m' := by
  refine ⟨?_, ?_, ?_⟩
  · exact memory_init_unchecked_data_index.1 [[1, 2]] 1 [0, 0] 1 0 0 (by decide)
  · exact memory_init_unchecked_data_index.2.2.1 [[1, 2]] 0 [0, 0] (-1) 0 0 (by decide)
      (by left; decide)
  · exact memory_init_unchecked_data_index.2.2.2.2 [[1, 2]] 0 [0, 0] 2 0 0 [1, 2] rfl
      (by decide) (by decide) (by decide) (by decide) (by decide)

/-- Writing one byte leaves the other positions unchanged. -/
theorem getD_set_ne (l : List Nat) (i j a : Nat) (h : i ≠ j) :
    (l.set i a).getD j 0 = l.getD j 0 := by
  simp [List.getD_eq_getElem?_getD, List.getElem?_set_ne h]

/-- Writing one byte places the value at that position. -/
theorem getD_set_self (l : List Nat) (i a : Nat) (h : i < l.length) :
    (l.set i a).getD i 0 = a := by
  simp [List.getD_eq_getElem?_getD, List.getElem?_set_self h]

/-- A defaulted read inside the bounds of a byte list is a byte. -/
theorem getD_lt_256 (l : List Nat) (i : Nat) (hb : ∀ b ∈ l, b < 256)
    (hi : i < l.length) : l.getD i 0 < 256 := by
  rw [List.getD_eq_getElem l 0 hi]
  exact hb _ (List.getElem_mem hi)

/-- Writing a byte keeps a list byte-valued. -/
theorem bytes_set (l : List Nat) (i a : Nat) (hb : ∀ b ∈ l, b < 256)
    (ha : a < 256) : ∀ b ∈ l.set i a, b < 256 := by
  intro b hbmem
  rcases List.mem_or_eq_of_mem_set hbmem with h | h
  · exact hb b h
  · omega

/-- Ascending direction of the no-wrap reference copy loop (`d ≤ s`): no error, the
length is preserved, `[d, d+n)` receives the original bytes of `[s, s+n)`,
everything else is untouched, and the bytes stay byte-valued. -/
theorem memCopyLoopNoWrap_asc :
    ∀ (n : Nat) (mem : List Nat) (d s : Nat),
      (∀ b ∈ mem, b < 256) → d ≤ s → s + n ≤ mem.length →
      (memCopyLoopNoWrap mem d s n).1 = none ∧
      (memCopyLoopNoWrap mem d s n).2.length = mem.length ∧
      (∀ j, j < n → (memCopyLoopNoWrap mem d s n).2.getD (d + j) 0 = mem.getD (s + j) 0) ∧
      (∀ i, i < d ∨ d + n ≤ i → (memCopyLoopNoWrap mem d s n).2.getD i 0 = mem.getD i 0) ∧
      (∀ b ∈ (memCopyLoopNoWrap mem d s n).2, b < 256) := by
  intro n
  induction n with
  | zero =>
      intro mem d s hb hds hbound
      exact ⟨rfl, rfl, fun j hj => absurd hj (by omega), fun i _ => rfl, hb⟩
  | succ k ih =>
      intro mem d s hb hds hbound
      have hs1 : s + 1 ≤ mem.length := by omega
      have hd1 : d + 1 ≤ mem.length := by omega
      have hslt : s < mem.length := by omega
      have hdlt : d < mem.length := by omega
      have hval : mem.getD s 0 % 256 = mem.getD s 0 :=
        Nat.mod_eq_of_lt (getD_lt_256 mem s hb hslt)
      have hb1 : ∀ b ∈ mem.set d (mem.getD s 0 % 256), b < 256 :=
        bytes_set _ _ _ hb (Nat.mod_lt _ (by norm_num))
      have hlen1 : (mem.set d (mem.getD s 0 % 256)).length = mem.length :=
        List.length_set ..
      obtain ⟨ih1, ih2, ih3, ih4, ih5⟩ :=
        ih (mem.set d (mem.getD s 0 % 256)) (d + 1) (s + 1) hb1 (by omega)
          (by rw [hlen1]; omega)
      have hred : memCopyLoopNoWrap mem d s (k + 1) =
          memCopyLoopNoWrap (mem.set d (mem.getD s 0 % 256)) (d + 1) (s + 1) k := by
        simp only [memCopyLoopNoWrap, if_pos hds, if_pos hs1, if_pos hd1]
      rw [hred]
      refine ⟨ih1, by rw [ih2, hlen1], ?_, ?_, ih5⟩
      · intro j hj
        rcases Nat.eq_zero_or_pos j with rfl | hpos
        · have h4 := ih4 d (Or.inl (by omega))
          simp only [Nat.add_zero]
          rw [h4, getD_set_self _ _ _ hdlt, hval]
        · have hj1 : j - 1 < k := by omega
          have h3 := ih3 (j - 1) hj1
          have hidx : d + 1 + (j - 1) = d + j := by omega
          have hidx2 : s + 1 + (j - 1) = s + j := by omega
          rw [hidx, hidx2] at h3
          rw [h3, getD_set_ne _ _ _ _ (by omega)]
      · intro i hi
        have h4 : (memCopyLoopNoWrap (mem.set d (mem.getD s 0 % 256)) (d + 1) (s + 1) k).2.getD
            i 0 = (mem.set d (mem.getD s 0 % 256)).getD i 0 := by
          apply ih4
          rcases hi with h | h
          · exact Or.inl (by omega)
          · exact Or.inr (by omega)
        rw [h4, getD_set_ne _ _ _ _ (by omega)]

/-- Descending direction of the no-wrap reference copy loop (`s < d`): no error, the
length is preserved, `[d, d+n)` receives the original bytes of `[s, s+n)`,
everything else is untouched, and the bytes stay byte-valued. -/
theorem memCopyLoopNoWrap_desc :
    ∀ (n : Nat) (mem : List Nat) (d s : Nat),
      (∀ b ∈ mem, b < 256) → s < d → d + n ≤ mem.length →
      (memCopyLoopNoWrap mem d s n).1 = none ∧
      (memCopyLoopNoWrap mem d s n).2.length = mem.length ∧
      (∀ j, j < n → (memCopyLoopNoWrap mem d s n).2.getD (d + j) 0 = mem.getD (s + j) 0) ∧
      (∀ i, i < d ∨ d + n ≤ i → (memCopyLoopNoWrap mem d s n).2.getD i 0 = mem.getD i 0) ∧
      (∀ b ∈ (memCopyLoopNoWrap mem d s n).2, b < 256) := by
  intro n
  induction n with
  | zero =>
      intro mem d s hb hsd hbound
      exact ⟨rfl, rfl, fun j hj => absurd hj (by omega), fun i _ => rfl, hb⟩
  | succ k ih =>
      intro mem d s hb hsd hbound
      have hnds : ¬ d ≤ s := by omega
      have hs1 : s + k + 1 ≤ mem.length := by omega
      have hd1 : d + k + 1 ≤ mem.length := by omega
      have hslt : s + k < mem.length := by omega
      have hdlt : d + k < mem.length := by omega
      have hval : mem.getD (s + k) 0 % 256 = mem.getD (s + k) 0 :=
        Nat.mod_eq_of_lt (getD_lt_256 mem (s + k) hb hslt)
      have hb1 : ∀ b ∈ mem.set (d + k) (mem.getD (s + k) 0 % 256), b < 256 :=
        bytes_set _ _ _ hb (Nat.mod_lt _ (by norm_num))
      have hlen1 : (mem.set (d + k) (mem.getD (s + k) 0 % 256)).length = mem.length :=
        List.length_set ..
      obtain ⟨ih1, ih2, ih3, ih4, ih5⟩ :=
        ih (mem.set (d + k) (mem.getD (s + k) 0 % 256)) d s hb1 hsd
          (by rw [hlen1]; omega)
      have hred : memCopyLoopNoWrap mem d s (k + 1) =
          memCopyLoopNoWrap (mem.set (d + k) (mem.getD (s + k) 0 % 256)) d s k := by
        simp only [memCopyLoopNoWrap, if_neg hnds, if_pos hs1, if_pos hd1]
      rw [hred]
      refine ⟨ih1, by rw [ih2, hlen1], ?_, ?_, ih5⟩
      · intro j hj
        rcases Nat.lt_or_ge j k with hjk | hjk
        · have h3 := ih3 j hjk
          rw [h3, getD_set_ne _ _ _ _ (by omega)]
        · have hjeq : j = k := by omega
          subst hjeq
          have h4 := ih4 (d + j) (Or.inr (by omega))
          rw [h4, getD_set_self _ _ _ hdlt, hval]
      · intro i hi
        have h4 : (memCopyLoopNoWrap (mem.set (d + k) (mem.getD (s + k) 0 % 256)) d s k).2.getD
            i 0 = (mem.set (d + k) (mem.getD (s + k) 0 % 256)).getD i 0 := by
          apply ih4
          rcases hi with h | h
          · exact Or.inl h
          · exact Or.inr (by omega)
        rw [h4, getD_set_ne _ _ _ _ (by omega)]

/-- One ascending iteration of the embedded copy loop under its window
checks. -/
theorem memCopyLoop_step_asc (mem : List Nat) (d s : Int) (n : Nat)
    (hds : d ≤ s) (hts : toU32 s + 1 ≤ mem.length) (htd : toU32 d + 1 ≤ mem.length) :
    memCopyLoop mem d s (n + 1) =
      memCopyLoop (mem.set (toU32 d) (mem.getD (toU32 s) 0 % 256))
        (wrap32 (d + 1)) (wrap32 (s + 1)) n := by
  simp only [memCopyLoop, if_pos hds, if_pos hts, if_pos htd]

/-- One descending iteration of the embedded copy loop under its window
checks. -/
theorem memCopyLoop_step_desc (mem : List Nat) (d s : Int) (n : Nat)
    (hds : ¬ d ≤ s)
    (hts : toU32 (wrap32 (s + (n + 1) - 1)) + 1 ≤ mem.length)
    (htd : toU32 (wrap32 (d + (n + 1) - 1)) + 1 ≤ mem.length) :
    memCopyLoop mem d s (n + 1) =
      memCopyLoop
        (mem.set (toU32 (wrap32 (d + (n + 1) - 1)))
          (mem.getD (toU32 (wrap32 (s + (n + 1) - 1))) 0 % 256)) d s n := by
  simp only [memCopyLoop, if_neg hds, if_pos hts, if_pos htd]

/-- On the no-wrap domain — both cursor sums at most `2^31` — the embedded
i32 copy loop coincides with the ideal reference loop. -/
theorem memCopyLoop_eq_noWrap :
    ∀ (n : Nat) (mem : List Nat) (d s : Nat), d + n ≤ 2 ^ 31 → s + n ≤ 2 ^ 31 →
      memCopyLoop mem (d : Int) (s : Int) n = memCopyLoopNoWrap mem d s n := by
  intro n
  induction n with
  | zero => intro mem d s _ _; rfl
  | succ k ih =>
      intro mem d s hd hs
      have hts : toU32 (s : Int) = s := toU32_coe s (by omega)
      have htd : toU32 (d : Int) = d := toU32_coe d (by omega)
      by_cases hds : d ≤ s
      · have hdsI : (d : Int) ≤ (s : Int) := by exact_mod_cast hds
        simp only [memCopyLoop, memCopyLoopNoWrap, if_pos hds, if_pos hdsI, hts, htd]
        by_cases h1 : s + 1 ≤ mem.length
        · simp only [if_pos h1]
          by_cases h2 : d + 1 ≤ mem.length
          · simp only [if_pos h2]
            rcases Nat.eq_zero_or_pos k with rfl | hk
            · rfl
            · rw [wrap32_coe_succ d (by omega), wrap32_coe_succ s (by omega)]
              exact ih _ (d + 1) (s + 1) (by omega) (by omega)
          · simp only [if_neg h2]
        · simp only [if_neg h1]
      · have hdsI : ¬ (d : Int) ≤ (s : Int) := by exact_mod_cast hds
        have htdw : wrap32 ((d : Int) + (k + 1) - 1) = ((d + k : Nat) : Int) := by
          have hc : ((d : Int) + (k + 1) - 1) = ((d + k : Nat) : Int) := by
            push_cast; ring
          rw [hc, wrap32_natCast _ (by omega)]
        have htsw : wrap32 ((s : Int) + (k + 1) - 1) = ((s + k : Nat) : Int) := by
          have hc : ((s : Int) + (k + 1) - 1) = ((s + k : Nat) : Int) := by
            push_cast; ring
          rw [hc, wrap32_natCast _ (by omega)]
        have htdk : toU32 ((d + k : Nat) : Int) = d + k := toU32_coe _ (by omega)
        have htsk : toU32 ((s + k : Nat) : Int) = s + k := toU32_coe _ (by omega)
        simp only [memCopyLoop, memCopyLoopNoWrap, if_neg hds, if_neg hdsI,
          htdw, htsw, htdk, htsk]
        by_cases h1 : s + k + 1 ≤ mem.length
        · simp only [if_pos h1]
          by_cases h2 : d + k + 1 ≤ mem.length
          · simp only [if_pos h2]
            exact ih _ d s (by omega) (by omega)
          · simp only [if_neg h2]
        · simp only [if_neg h1]

/-- C5 amended: `memory.copy` with negative or out-of-bounds operands
returns MemoryAccessOutOfBounds with the memory unchanged; with in-bounds
operands whose sums `s + n` and `d + n` also stay within the i32 cursor
range (at most `2^31`) it succeeds and — for every possible overlap of the
two ranges, the loop proceeding ascending when `d ≤ s` and descending
otherwise — leaves the bytes at `[d, d+n)` equal to the bytes that were at
`[s, s+n)` before the instruction and every other byte untouched.  Beyond
`2^31`, reachable only on memories larger than `2^31` bytes, the i32
cursors overflow and the copy is corrupted
(`memory_copy_i32_wrap_counterexample`). -/
theorem memory_copy_correct :
    (∀ (mem : List Nat) (n s d : Int),
      ((n < 0 ∨ s < 0 ∨ d < 0) ∨
        s.toNat + n.toNat > mem.length ∨ d.toNat + n.toNat > mem.length) →
      memory_copy mem n s d = (some .MemoryAccessOutOfBounds, mem)) ∧
    (∀ (mem : List Nat) (n s d : Nat),
      (∀ b ∈ mem, b < 256) → s + n ≤ mem.length → d + n ≤ mem.length →
      s + n ≤ 2 ^ 31 → d + n ≤ 2 ^ 31 →
      (memory_copy mem n s d).1 = none ∧
      (memory_copy mem n s d).2.length = mem.length ∧
      (∀ j, j < n → (memory_copy mem n s d).2.getD (d + j) 0 = mem.getD (s + j) 0) ∧
      (∀ i, i < d ∨ d + n ≤ i →
        (memory_copy mem n s d).2.getD i 0 = mem.getD i 0)) := by
  constructor
  · intro mem n s d h
    unfold memory_copy
    by_cases hneg : n < 0 ∨ s < 0 ∨ d < 0
    · rw [if_pos hneg]
    · rw [if_neg hneg]
      have hoob : s.toNat + n.toNat > mem.length ∨ d.toNat + n.toNat > mem.length := by
        tauto
      rw [if_pos hoob]
  · intro mem n s d hb h1 h2 h3 h4
    have hneg : ¬((n : Int) < 0 ∨ (s : Int) < 0 ∨ (d : Int) < 0) := by omega
    have ht1 : ((n : Int)).toNat = n := Int.toNat_natCast n
    have ht2 : ((s : Int)).toNat = s := Int.toNat_natCast s
    have ht3 : ((d : Int)).toNat = d := Int.toNat_natCast d
    have hoob : ¬(((s : Int)).toNat + ((n : Int)).toNat > mem.length ∨
        ((d : Int)).toNat + ((n : Int)).toNat > mem.length) := by
      rw [ht1, ht2, ht3]
      omega
    have hred : memory_copy mem n s d = memCopyLoopNoWrap mem d s n := by
      unfold memory_copy
      rw [if_neg hneg, if_neg hoob, ht1]
      exact memCopyLoop_eq_noWrap n mem d s h4 h3
    rcases le_or_lt d s with hds | hsd
    · obtain ⟨c1, c2, c3, c4, -⟩ := memCopyLoopNoWrap_asc n mem d s hb hds h1
      rw [hred]
      exact ⟨c1, c2, c3, c4⟩
    · obtain ⟨c1, c2, c3, c4, -⟩ := memCopyLoopNoWrap_desc n mem d s hb hsd h2
      rw [hred]
      exact ⟨c1, c2, c3, c4⟩

/-- C5 witness: the amended theorem applied to the concrete overlapping
copy of 2 bytes from offset 1 to offset 0 in a 4-byte memory, and to a
negative length. -/
theorem memory_copy_correct_witness :
    (memory_copy [10, 20, 30, 40] 2 1 0).2.getD 0 0 = List.getD [10, 20, 30, 40] 1 0 ∧
    memory_copy [10, 20, 30, 40] (-1) 0 0 =
      (some .MemoryAccessOutOfBounds, [10, 20, 30, 40]) := by
  constructor
  · have h := (memory_copy_correct.2 [10, 20, 30, 40] 2 1 0 (by decide) (by decide)
      (by decide) (by decide) (by decide)).2.2.1 0 (by decide)
    simpa using h
  · exact memory_copy_correct.1 [10, 20, 30, 40] (-1) 0 0 (Or.inl (Or.inl (by decide)))

set_option maxHeartbeats 1000000 in
/-- C5 counterexample: on a 2147483652-byte memory (within the 4 GiB the
interpreter allows) the operands `n = 4`, `s = 2147483646`, `d = 2147483645`
pass every bounds check, yet the copy is corrupted: the source's `i32`
cursors overflow at `2^31`, the `dst > src` comparison flips the loop into
its descending branch mid-copy, and the byte landing at `d + 2` is `40`
while the original byte at `s + 2` is `30`. The claim's "byte-for-byte"
copy therefore fails on in-bounds inputs whose cursor sums exceed `2^31`. -/
theorem memory_copy_i32_wrap_counterexample :
    cexMem.length = 2147483652 ∧
    2147483646 + 4 ≤ cexMem.length ∧ 2147483645 + 4 ≤ cexMem.length ∧
    (memory_copy cexMem 4 2147483646 2147483645).1 = none ∧
    (memory_copy cexMem 4 2147483646 2147483645).2.getD 2147483647 0 = 40 ∧
    cexMem.getD 2147483648 0 = 30 ∧ (40 : Nat) ≠ 30 := by
  have hlen : cexMem.length = 2147483652 := by
    unfold cexMem
    rw [List.length_append, List.length_replicate]
    rfl
  have hg : ∀ k v : Nat, List.getD [10, 20, 30, 40, 50, 60] k 0 = v →
      cexMem.getD (2147483646 + k) 0 = v := by
    intro k v hv
    unfold cexMem
    rw [List.getD_eq_getElem?_getD,
      List.getElem?_append_right (by simp only [List.length_replicate]; omega)]
    simp only [List.length_replicate, Nat.add_sub_cancel_left]
    rw [← List.getD_eq_getElem?_getD]
    exact hv
  have g1 : cexMem.getD 2147483646 0 = 10 := by
    have h := hg 0 10 rfl
    rw [Nat.add_zero] at h
    exact h
  have g2 : cexMem.getD 2147483647 0 = 20 := by
    have h := hg 1 20 rfl
    rw [show (2147483646 + 1 : Nat) = 2147483647 from rfl] at h
    exact h
  have g3 : cexMem.getD 2147483648 0 = 30 := by
    have h := hg 2 30 rfl
    rw [show (2147483646 + 2 : Nat) = 2147483648 from rfl] at h
    exact h
  have g4 : cexMem.getD 2147483649 0 = 40 := by
    have h := hg 3 40 rfl
    rw [show (2147483646 + 3 : Nat) = 2147483649 from rfl] at h
    exact h
  have hlen1 : (cexMem.set 2147483645 10).length = 2147483652 := by
    rw [List.length_set, hlen]
  have hlen2 : ((cexMem.set 2147483645 10).set 2147483646 20).length = 2147483652 := by
    rw [List.length_set, hlen1]
  have hlen3 :
      (((cexMem.set 2147483645 10).set 2147483646 20).set 2147483648 40).length =
        2147483652 := by
    rw [List.length_set, hlen2]
  have e2 : toU32 (2147483645 : Int) = 2147483645 := by decide
  have e3 : toU32 (2147483646 : Int) = 2147483646 := by decide
  have e4 : toU32 (2147483647 : Int) = 2147483647 := by decide
  have e5 : toU32 (-2147483648 : Int) = 2147483648 := by decide
  have e6 : toU32 (-2147483647 : Int) = 2147483649 := by decide
  have w1 : wrap32 ((2147483645 : Int) + 1) = 2147483646 := by decide
  have w2 : wrap32 ((2147483646 : Int) + 1) = 2147483647 := by decide
  have w3 : wrap32 ((2147483647 : Int) + 1) = -2147483648 := by decide
  have wd3 : wrap32 ((2147483647 : Int) + (((1 : Nat) : Int) + 1) - 1) =
      -2147483648 := by decide
  have ws3 : wrap32 ((-2147483648 : Int) + (((1 : Nat) : Int) + 1) - 1) =
      -2147483647 := by decide
  have wd4 : wrap32 ((2147483647 : Int) + (((0 : Nat) : Int) + 1) - 1) =
      2147483647 := by decide
  have ws4 : wrap32 ((-2147483648 : Int) + (((0 : Nat) : Int) + 1) - 1) =
      -2147483648 := by decide
  have s1 : memCopyLoop cexMem 2147483645 2147483646 4 =
      memCopyLoop (cexMem.set 2147483645 10) 2147483646 2147483647 3 := by
    have hts1 : toU32 (2147483646 : Int) + 1 ≤ cexMem.length := by
      rw [e3, hlen]; norm_num
    have htd1 : toU32 (2147483645 : Int) + 1 ≤ cexMem.length := by
      rw [e2, hlen]; norm_num
    have h := memCopyLoop_step_asc cexMem 2147483645 2147483646 3 (by decide) hts1 htd1
    rw [e2, e3, g1, w1, w2,
      show (10 % 256 : Nat) = 10 from rfl,
      show (3 + 1 : Nat) = 4 from rfl] at h
    exact h
  have s2 : memCopyLoop (cexMem.set 2147483645 10) 2147483646 2147483647 3 =
      memCopyLoop ((cexMem.set 2147483645 10).set 2147483646 20)
        2147483647 (-2147483648) 2 := by
    have l2 : (cexMem.set 2147483645 10).getD 2147483647 0 = 20 := by
      rw [getD_set_ne cexMem 2147483645 2147483647 10 (by norm_num), g2]
    have hts2 : toU32 (2147483647 : Int) + 1 ≤ (cexMem.set 2147483645 10).length := by
      rw [e4, hlen1]; norm_num
    have htd2 : toU32 (2147483646 : Int) + 1 ≤ (cexMem.set 2147483645 10).length := by
      rw [e3, hlen1]; norm_num
    have h := memCopyLoop_step_asc (cexMem.set 2147483645 10) 2147483646 2147483647 2
      (by decide) hts2 htd2
    rw [e3, e4, l2, w2, w3,
      show (20 % 256 : Nat) = 20 from rfl,
      show (2 + 1 : Nat) = 3 from rfl] at h
    exact h
  have s3 : memCopyLoop ((cexMem.set 2147483645 10).set 2147483646 20)
      2147483647 (-2147483648) 2 =
      memCopyLoop (((cexMem.set 2147483645 10).set 2147483646 20).set 2147483648 40)
        2147483647 (-2147483648) 1 := by
    have l3 : ((cexMem.set 2147483645 10).set 2147483646 20).getD 2147483649 0 = 40 := by
      rw [getD_set_ne (cexMem.set 2147483645 10) 2147483646 2147483649 20 (by norm_num),
        getD_set_ne cexMem 2147483645 2147483649 10 (by norm_num), g4]
    have h := memCopyLoop_step_desc ((cexMem.set 2147483645 10).set 2147483646 20)
      2147483647 (-2147483648) 1 (by decide)
      (by rw [ws3, e6, hlen2]; norm_num)
      (by rw [wd3, e5, hlen2]; norm_num)
    rw [wd3, ws3, e5, e6, l3,
      show (40 % 256 : Nat) = 40 from rfl,
      show (1 + 1 : Nat) = 2 from rfl] at h
    exact h
  have s4 : memCopyLoop (((cexMem.set 2147483645 10).set 2147483646 20).set 2147483648 40)
      2147483647 (-2147483648) 1 =
      memCopyLoop ((((cexMem.set 2147483645 10).set 2147483646 20).set
        2147483648 40).set 2147483647 40) 2147483647 (-2147483648) 0 := by
    have l4 : (((cexMem.set 2147483645 10).set 2147483646 20).set 2147483648 40).getD
        2147483648 0 = 40 :=
      getD_set_self ((cexMem.set 2147483645 10).set 2147483646 20) 2147483648 40
        (by rw [hlen2]; norm_num)
    have h := memCopyLoop_step_desc
      (((cexMem.set 2147483645 10).set 2147483646 20).set 2147483648 40)
      2147483647 (-2147483648) 0 (by decide)
      (by rw [ws4, e5, hlen3]; norm_num)
      (by rw [wd4, e4, hlen3]; norm_num)
    rw [wd4, ws4, e4, e5, l4,
      show (40 % 256 : Nat) = 40 from rfl,
      show (0 + 1 : Nat) = 1 from rfl] at h
    exact h
  have hnegc : ¬((4 : Int) < 0 ∨ (2147483646 : Int) < 0 ∨ (2147483645 : Int) < 0) := by
    decide
  have hoobc : ¬((2147483646 : Int).toNat + 4 > cexMem.length ∨
      (2147483645 : Int).toNat + 4 > cexMem.length) := by
    rw [hlen]; decide
  have hm : memory_copy cexMem 4 2147483646 2147483645 =
      memCopyLoop cexMem 2147483645 2147483646 4 := by
    unfold memory_copy
    rw [show ((4 : Int)).toNat = 4 from rfl, if_neg hnegc, if_neg hoobc]
  have hz : ∀ (m : List Nat) (a b : Int), memCopyLoop m a b 0 = (none, m) :=
    fun _ _ _ => rfl
  have hchain : memory_copy cexMem 4 2147483646 2147483645 =
      (none, (((cexMem.set 2147483645 10).set 2147483646 20).set
        2147483648 40).set 2147483647 40) := by
    rw [hm, s1, s2, s3, s4, hz]
  refine ⟨hlen, by rw [hlen]; norm_num, by rw [hlen]; norm_num, ?_, ?_, g3, by decide⟩
  · rw [hchain]
  · rw [hchain]
    exact getD_set_self (((cexMem.set 2147483645 10).set 2147483646 20).set
      2147483648 40) 2147483647 40 (by rw [hlen3]; norm_num)

end WasmIntp
